import Mathlib

/-!
Verification of `BinaryArrayList/BinaryVectorList.h` against its
natural-language specification.

The header declares the class `BinaryVectorList<value_type, allocator_type>`.
Despite the documentation describing a segmented "v-list" of independently
allocated blocks, the only data member is a single `std::vector<value_type>
m_vTvector` (the segmented member `m_vvTvectorList` is commented out), and
every public operation is a one-line delegation to that vector.  The shallow
embedding below therefore models the class as a wrapper around one
`std::vector`, whose specified behaviour (bounds checking of `at`,
reallocation when an insertion exceeds capacity, undefined behaviour of
`pop_back`/`erase` on an empty vector) is taken from the C++ standard library
contract that the delegated calls obey.

The state of the single `std::vector` member is modelled as its element
sequence plus its capacity plus an allocation identity (`bufId`): a
reallocation (which the standard mandates whenever an insertion would exceed
the current capacity, and which moves every stored element to fresh storage)
is modelled by bumping `bufId`.  The growth factor of `std::vector` is
implementation defined; a doubling policy is used here, and no theorem below
depends on the particular factor.  Allocation failure (`std::bad_alloc`,
the specification's `AllocationFailure`) is modelled in the `CppOutcome`
variants of the allocating operations (`pushBackA`, `pushFrontA`,
`insertA`), where the success of the attempted allocation is an explicit
parameter and the standard's no-effects guarantee for allocator exceptions
fixes the post-call state; the plain variants assume the allocation
succeeds.  Undefined behaviour of a delegated call is modelled as the
distinguished outcome `CppError.undefinedBehavior` (or `CppOutcome.ub`).
-/

deriving instance DecidableEq for Except

/-- Error outcomes of the modelled operations.  `outOfRange` is the
`std::out_of_range` exception thrown by `std::vector::at`;
`emptyContainer` and `allocationFailure` are the other two names of the
specification's error taxonomy (no operation of the source ever produces
them); `undefinedBehavior` marks a delegated call whose precondition is
violated, for which the C++ standard gives no guarantee at all. -/
inductive CppError : Type
  | outOfRange
  | emptyContainer
  | allocationFailure
  | undefinedBehavior
deriving DecidableEq, Repr

/-- The observable state of the single `std::vector<value_type> m_vTvector`
member of `BinaryVectorList`: its element sequence, its capacity, and the
identity of its current allocation (which changes exactly when the vector
reallocates). -/
structure CppVector (α : Type) : Type where
  data : List α
  cap : Nat
  bufId : Nat
deriving DecidableEq, Repr

namespace CppVector

variable {α : Type}

/-- `BinaryVectorList::size()`, delegating to `m_vTvector.size()`. -/
def size (v : CppVector α) : Nat :=
  v.data.length

/-- The default-constructed `BinaryVectorList` (empty `std::vector`:
size 0, capacity 0). -/
def emptyBVL : CppVector α :=
  ⟨[], 0, 0⟩

/-- Reallocation step of `std::vector`: when the vector is full, an
insertion first moves all elements to a fresh, larger allocation.  The
doubling factor is implementation defined; nothing below depends on it. -/
def growIfFull (v : CppVector α) : CppVector α :=
  if v.data.length = v.cap then
    { v with cap := if v.cap = 0 then 1 else 2 * v.cap, bufId := v.bufId + 1 }
  else v

/-- `BinaryVectorList::push_back(val)`, delegating to
`m_vTvector.push_back(val)`: append at the end, reallocating first if the
vector is full. -/
def pushBack (v : CppVector α) (x : α) : CppVector α :=
  let v' := growIfFull v
  { v' with data := v'.data ++ [x] }

/-- `BinaryVectorList::at(n)`, delegating to `m_vTvector.at(n)`: returns the
element at position `n`, or throws `std::out_of_range` when `n >= size()`. -/
def atF (v : CppVector α) (n : Nat) : Except CppError α :=
  match v.data[n]? with
  | some x => .ok x
  | none => .error .outOfRange

/-- `BinaryVectorList::operator[](n)`, delegating to `m_vTvector[n]`:
unchecked access, meaningful only for `n < size()` (reading out of range is
undefined behaviour; the comparison operators below only ever call it in
range). -/
def opIndex [Inhabited α] (v : CppVector α) (n : Nat) : α :=
  v.data.getD n default

/-- `BinaryVectorList::pop_back()`, delegating to `m_vTvector.pop_back()`:
removes the last element.  On an empty vector the delegated call is
undefined behaviour (the source performs no emptiness check). -/
def popBack (v : CppVector α) : Except CppError (CppVector α) :=
  match v.data with
  | [] => .error .undefinedBehavior
  | _ :: _ => .ok { v with data := v.data.dropLast }

/-- `BinaryVectorList::insert(position, val)` at logical position `p`,
delegating to `m_vTvector.insert(...)`: shifts the elements from `p` on one
slot to the right, reallocating first if the vector is full.  The iterator
argument is valid only for `p ≤ size()`; beyond that the delegated call is
undefined behaviour. -/
def insertF (v : CppVector α) (p : Nat) (x : α) : Except CppError (CppVector α) :=
  if p ≤ v.data.length then
    let v' := growIfFull v
    .ok { v' with data := v'.data.take p ++ x :: v'.data.drop p }
  else .error .undefinedBehavior

/-- `BinaryVectorList::push_front(val)`, implemented in the source as
`m_vTvector.insert(m_vTvector.begin(), val)`: position 0 is always a valid
insertion point, so this always succeeds. -/
def pushFront (v : CppVector α) (x : α) : CppVector α :=
  let v' := growIfFull v
  { v' with data := x :: v'.data }

/-- `BinaryVectorList::erase(position)` at logical position `p`, delegating
to `m_vTvector.erase(...)`: removes the element at `p`, shifting the
following elements left.  The iterator must be dereferenceable, so on
`p ≥ size()` the delegated call is undefined behaviour. -/
def eraseF (v : CppVector α) (p : Nat) : Except CppError (CppVector α) :=
  if p < v.data.length then
    .ok { v with data := v.data.take p ++ v.data.drop (p + 1) }
  else .error .undefinedBehavior

/-- `BinaryVectorList::pop_front()`, implemented in the source as
`m_vTvector.erase(m_vTvector.begin())`: on an empty vector `begin()` is not
dereferenceable, so the delegated call is undefined behaviour. -/
def popFront (v : CppVector α) : Except CppError (CppVector α) :=
  eraseF v 0

end CppVector

namespace CppVector

variable {α : Type}

/-- `operator==(lhs, rhs)` from the source: compares sizes, and when they
match compares the elements `lhs[i] == rhs[i]` for `i = 0, …, size-1`
(the source's early `break` on the first mismatch and the conjunction over
the whole index range compute the same boolean). -/
def opEq [DecidableEq α] [Inhabited α] (lhs rhs : CppVector α) : Bool :=
  if lhs.size = rhs.size then
    (List.range lhs.size).all fun i => decide (opIndex lhs i = opIndex rhs i)
  else false

/-- The index loop of `operator<(lhs, rhs)` from the source, started at
index `i`: while `i` is in range of both containers, return `true` at the
first index with `lhs[i] < rhs[i]`, `false` at the first index with
`rhs[i] < lhs[i]`; if the end of either container is reached with all
compared elements equal, return `lhs.size() < rhs.size()`. -/
def opLtGo [LinearOrder α] [Inhabited α] (lhs rhs : CppVector α) (i : Nat) : Bool :=
  if h : i < lhs.size ∧ i < rhs.size then
    if opIndex lhs i < opIndex rhs i then true
    else if opIndex rhs i < opIndex lhs i then false
    else opLtGo lhs rhs (i + 1)
  else decide (lhs.size < rhs.size)
termination_by lhs.size - i
decreasing_by
  omega

/-- `operator<(lhs, rhs)` from the source: the comparison loop started at
index 0. -/
def opLt [LinearOrder α] [Inhabited α] (lhs rhs : CppVector α) : Bool :=
  opLtGo lhs rhs 0

/-- Structural restatement of the `operator<` loop on the element lists,
used to relate `opLt` to the standard lexicographic order. -/
def lexLoop [LinearOrder α] : List α → List α → Bool
  | [], [] => false
  | [], _ :: _ => true
  | _ :: _, [] => false
  | a :: as, b :: bs =>
    if a < b then true
    else if b < a then false
    else lexLoop as bs

end CppVector

/-- One `push_back`/`pop_back` call in a client operation sequence. -/
inductive Op (α : Type) : Type
  | push (x : α)
  | pop
deriving DecidableEq, Repr

namespace Op

variable {α : Type}

/-- Run a sequence of `push_back`/`pop_back` calls against the container. -/
def runOps (v : CppVector α) : List (Op α) → Except CppError (CppVector α)
  | [] => .ok v
  | .push x :: rest => runOps (v.pushBack x) rest
  | .pop :: rest =>
    match v.popBack with
    | .ok v' => runOps v' rest
    | .error e => .error e

/-- Number of `push_back` calls in the sequence. -/
def countPush : List (Op α) → Nat
  | [] => 0
  | .push _ :: rest => countPush rest + 1
  | .pop :: rest => countPush rest

/-- Number of `pop_back` calls in the sequence. -/
def countPop : List (Op α) → Nat
  | [] => 0
  | .push _ :: rest => countPop rest
  | .pop :: rest => countPop rest + 1

/-- The sequence is admissible when started at a container of `n` elements:
every `pop_back` happens on a non-empty container. -/
def validFrom : Nat → List (Op α) → Bool
  | _, [] => true
  | n, .push _ :: rest => validFrom (n + 1) rest
  | n, .pop :: rest => decide (0 < n) && validFrom (n - 1) rest

/-- The sequence of values that have been pushed and not popped, in push
order, starting from the initial contents `l`: `push_back` appends at the
end, `pop_back` removes the last element. -/
def opsModel : List α → List (Op α) → List α
  | l, [] => l
  | l, .push x :: rest => opsModel (l ++ [x]) rest
  | l, .pop :: rest => opsModel l.dropLast rest

end Op

/-- Modelled from the spec: the Index Mapper's growth schedule
`blockCapacityFor(blockIndex)`.  The Index Mapper component is missing from
`src/` (the segmented data member of the class is commented out and no
mapping arithmetic exists in the header), so it is modelled from the spec's
words: block capacities `1,1,2,2,4,4,8,8,…`, doubling every two blocks. -/
def blockCapacityFor (b : Nat) : Nat :=
  2 ^ (b / 2)

/-- Modelled from the spec: the Index Mapper's
`cumulativeCapacity(blockIndex)`, the closed-form total capacity of blocks
`0, …, blockIndex-1` of the doubling-pairs schedule: `2^(k/2+1) - 2` for
even `k` and `3 * 2^(k/2) - 2` for odd `k`. -/
def cumulativeCapacity (k : Nat) : Nat :=
  if k % 2 = 0 then 2 ^ (k / 2 + 1) - 2 else 3 * 2 ^ (k / 2) - 2

/-- Modelled from the spec: the block-index half of
`locate(logicalIndex, totalSize)`, computed in closed form from the
bit-length of the shifted index (the spec's "via the bit-length of
(index+1) for the doubling-pairs schedule"): with `j = i + 2` and
`m = log2 j - 1`, the index lies in block `2*m` when `j < 3 * 2^m` and in
block `2*m + 1` otherwise. -/
def locateBlock (i : Nat) : Nat :=
  if i + 2 < 3 * 2 ^ (Nat.log2 (i + 2) - 1) then 2 * (Nat.log2 (i + 2) - 1)
  else 2 * (Nat.log2 (i + 2) - 1) + 1

/-- Modelled from the spec: the offset half of
`locate(logicalIndex, totalSize)`: the logical index minus the cumulative
capacity of the blocks before its block. -/
def locateOffset (i : Nat) : Nat :=
  i - cumulativeCapacity (locateBlock i)

/-- Modelled from the spec: `locate(logicalIndex, totalSize)` of the Index
Mapper: fails with `OutOfRange` when `logicalIndex >= totalSize`, and
otherwise returns the (block index, offset) pair computed in closed form
over the schedule. -/
def locate (i total : Nat) : Except CppError (Nat × Nat) :=
  if total ≤ i then .error .outOfRange
  else .ok (locateBlock i, locateOffset i)

/-- Outcome of a delegated mutating `std::vector` call, with the post-call
observable state recorded: `ok v` — the call succeeded leaving state `v`;
`failed e v` — the call raised the error `e` and left the vector in state
`v`; `ub` — the call's precondition was violated and the C++ standard gives
no guarantee about the resulting state at all. -/
inductive CppOutcome (α : Type) : Type
  | ok (v : CppVector α)
  | failed (e : CppError) (v : CppVector α)
  | ub
deriving DecidableEq, Repr

namespace CppVector

variable {α : Type}

/-- `BinaryVectorList::push_back(val)` with the outcome of the delegated
allocation made explicit: a push on a full vector must reallocate, and
`allocOk` says whether that allocation succeeds.  On allocation failure
`std::vector::push_back` throws `std::bad_alloc` (the specification's
`AllocationFailure`) and the standard guarantees the call has no effects,
so the post-call state is the pre-call state. -/
def pushBackA (allocOk : Bool) (v : CppVector α) (x : α) : CppOutcome α :=
  if v.data.length = v.cap ∧ allocOk = false then .failed .allocationFailure v
  else .ok (pushBack v x)

/-- `BinaryVectorList::push_front(val)` (`m_vTvector.insert(begin(), val)`)
with the outcome of the delegated allocation made explicit; on
`std::bad_alloc` the standard's no-effects guarantee applies as for
`push_back`. -/
def pushFrontA (allocOk : Bool) (v : CppVector α) (x : α) : CppOutcome α :=
  if v.data.length = v.cap ∧ allocOk = false then .failed .allocationFailure v
  else .ok (pushFront v x)

/-- `BinaryVectorList::insert(position, val)` with the outcome of the
delegated allocation made explicit: at a valid position, a full vector must
reallocate first, and an allocation failure surfaces `std::bad_alloc` with
no effects; past the valid position range the delegated call is undefined
behaviour. -/
def insertA (allocOk : Bool) (v : CppVector α) (p : Nat) (x : α) : CppOutcome α :=
  if p ≤ v.data.length then
    if v.data.length = v.cap ∧ allocOk = false then .failed .allocationFailure v
    else
      let v' := growIfFull v
      .ok { v' with data := v'.data.take p ++ x :: v'.data.drop p }
  else .ub

/-- `BinaryVectorList::pop_back()` in outcome form: no allocation is
involved; on an empty vector the delegated call is undefined behaviour. -/
def popBackA (v : CppVector α) : CppOutcome α :=
  match v.data with
  | [] => .ub
  | _ :: _ => .ok { v with data := v.data.dropLast }

/-- `BinaryVectorList::erase(position)` in outcome form: no allocation is
involved; on a position that is not dereferenceable the delegated call is
undefined behaviour. -/
def eraseA (v : CppVector α) (p : Nat) : CppOutcome α :=
  if p < v.data.length then
    .ok { v with data := v.data.take p ++ v.data.drop (p + 1) }
  else .ub

/-- `BinaryVectorList::pop_front()` in outcome form:
`m_vTvector.erase(m_vTvector.begin())`. -/
def popFrontA (v : CppVector α) : CppOutcome α :=
  eraseA v 0

end CppVector

namespace CppVector

variable {α : Type}

theorem growIfFull_data (v : CppVector α) : (growIfFull v).data = v.data := by
  unfold growIfFull
  split <;> rfl

theorem pushBack_data (v : CppVector α) (x : α) :
    (pushBack v x).data = v.data ++ [x] := by
  simp [pushBack, growIfFull_data]

theorem pushFront_data (v : CppVector α) (x : α) :
    (pushFront v x).data = x :: v.data := by
  simp [pushFront, growIfFull_data]

theorem pushBack_size (v : CppVector α) (x : α) :
    (pushBack v x).size = v.size + 1 := by
  simp [size, pushBack_data]

theorem atF_eq (v : CppVector α) (n : Nat) :
    atF v n = match v.data[n]? with
      | some x => Except.ok x
      | none => Except.error CppError.outOfRange := rfl

theorem atF_of_lt (v : CppVector α) (n : Nat) (h : n < v.data.length) :
    atF v n = .ok v.data[n] := by
  rw [atF_eq, List.getElem?_eq_getElem h]

end CppVector

open CppVector Op

/-- The library's checked accessor `at` fails with `OutOfRange` exactly on
indices at or beyond the current size, and succeeds with the stored element
below the size. -/
theorem at_outOfRange_iff {α : Type} (v : CppVector α) (n : Nat) :
    (atF v n = .error .outOfRange ↔ v.size ≤ n) ∧
    ∀ h : n < v.size, atF v n = .ok (v.data.get ⟨n, h⟩) := by
  refine ⟨⟨fun he => ?_, fun hle => ?_⟩, fun h => ?_⟩
  · by_contra hlt
    push_neg at hlt
    rw [atF_eq, List.getElem?_eq_getElem hlt] at he
    exact absurd he (by simp)
  · rw [atF_eq, List.getElem?_eq_none hle]
  · rw [atF_eq, List.getElem?_eq_getElem h]
    simp [List.get_eq_getElem]

/-- Instance of `at_outOfRange_iff` on the one-element container `[5]`:
`at 0` succeeds with 5 and `at 1` fails with `OutOfRange`. -/
theorem at_outOfRange_iff_instance :
    atF (⟨[(5 : Int)], 1, 1⟩ : CppVector Int) 0 =
      .ok ((⟨[(5 : Int)], 1, 1⟩ : CppVector Int).data.get ⟨0, Nat.one_pos⟩) ∧
    atF (⟨[(5 : Int)], 1, 1⟩ : CppVector Int) 1 = .error .outOfRange :=
  ⟨(at_outOfRange_iff ⟨[(5 : Int)], 1, 1⟩ 0).2 Nat.one_pos,
   (at_outOfRange_iff ⟨[(5 : Int)], 1, 1⟩ 1).1.mpr (by decide)⟩

/-- The source's `pop_back` delegates to `std::vector::pop_back` with no
emptiness check, so on an empty container it is undefined behaviour — it
does not raise the specification's `EmptyContainer` error. -/
theorem popBack_empty_is_ub :
    popBack (emptyBVL : CppVector Int) = .error .undefinedBehavior ∧
    popBack (emptyBVL : CppVector Int) ≠ .error .emptyContainer := by
  decide

/-- Amended pop_back behaviour: on an empty container `pop_back` is
undefined behaviour (no `EmptyContainer` error is raised); on a non-empty
container it succeeds, reduces the size by exactly 1 and leaves the first
`size - 1` elements unchanged. -/
theorem popBack_nonempty_spec {α : Type} (v : CppVector α) :
    (v.size = 0 → popBack v = .error .undefinedBehavior) ∧
    (v.size ≠ 0 → ∃ v', popBack v = .ok v' ∧ v'.size = v.size - 1 ∧
      ∀ i, i < v.size - 1 → atF v' i = atF v i) := by
  rcases v with ⟨data, cap, buf⟩
  cases data with
  | nil => exact ⟨fun _ => rfl, fun h => absurd rfl h⟩
  | cons a l =>
    refine ⟨fun h => by simp [size] at h, fun _ => ⟨_, rfl, ?_, fun i hi => ?_⟩⟩
    · simp [size, List.length_dropLast]
    · have hi' : i < (⟨a :: l, cap, buf⟩ : CppVector α).data.length - 1 := hi
      rw [atF_eq, atF_eq, List.dropLast_eq_take, List.getElem?_take_of_lt hi']

/-- Instance of `popBack_nonempty_spec`: popping the container `[7, 8]`
succeeds, and popping the empty container is undefined behaviour. -/
theorem popBack_nonempty_spec_instance :
    popBack (⟨([] : List Int), 0, 0⟩ : CppVector Int) = .error .undefinedBehavior ∧
    ∃ v', popBack (⟨[(7 : Int), 8], 2, 1⟩ : CppVector Int) = .ok v' ∧
      v'.size = (⟨[(7 : Int), 8], 2, 1⟩ : CppVector Int).size - 1 ∧
      ∀ i, i < (⟨[(7 : Int), 8], 2, 1⟩ : CppVector Int).size - 1 →
        atF v' i = atF (⟨[(7 : Int), 8], 2, 1⟩ : CppVector Int) i :=
  ⟨(popBack_nonempty_spec ⟨[], 0, 0⟩).1 rfl,
   (popBack_nonempty_spec ⟨[(7 : Int), 8], 2, 1⟩).2 (by decide)⟩

/-- The class stores all elements in the single contiguous
`std::vector<value_type> m_vTvector`, not in independently allocated
blocks: the second `push_back` on an initially empty container exceeds the
capacity and reallocates the one buffer, relocating the already stored
element (the allocation identity changes while an element is stored) —
contradicting the claimed never-relocate growth. -/
theorem single_buffer_growth_relocates :
    (pushBack (emptyBVL : CppVector Int) 10).data = [10] ∧
    (pushBack (pushBack (emptyBVL : CppVector Int) 10) 20).data = [10, 20] ∧
    (pushBack (pushBack (emptyBVL : CppVector Int) 10) 20).bufId ≠
      (pushBack (emptyBVL : CppVector Int) 10).bufId := by
  decide



/-- The source's `insert` at a valid logical position `p` places the value
at position `p`, shifts every element from `p` on one slot to the right,
grows the size by 1 and leaves the elements before `p` unchanged. -/
theorem insert_shifts_spec {α : Type} (v : CppVector α) (p : Nat) (x : α)
    (hp : p ≤ v.size) :
    ∃ v', insertF v p x = .ok v' ∧ v'.size = v.size + 1 ∧
      atF v' p = .ok x ∧
      (∀ i, i < p → atF v' i = atF v i) ∧
      (∀ i, p ≤ i → i < v.size → atF v' (i + 1) = atF v i) := by
  have hp' : p ≤ v.data.length := hp
  have hrun : insertF v p x =
      .ok { growIfFull v with data := v.data.take p ++ x :: v.data.drop p } := by
    simp [insertF, hp', growIfFull_data]
  have hlen : (v.data.take p).length = p := by
    simp
    omega
  refine ⟨_, hrun, ?_, ?_, fun i hi => ?_, fun i hpi his => ?_⟩
  · simp [size]
    omega
  · rw [atF_eq]
    have h1 : (v.data.take p).length ≤ p := by omega
    rw [List.getElem?_append_right h1, hlen, Nat.sub_self]
    simp
  · rw [atF_eq, atF_eq]
    have h1 : i < (v.data.take p).length := by omega
    have h2 : i < p := hi
    rw [List.getElem?_append_left h1, List.getElem?_take_of_lt h2]
  · rw [atF_eq, atF_eq]
    have h1 : (v.data.take p).length ≤ i + 1 := by omega
    rw [List.getElem?_append_right h1, hlen]
    have h2 : i + 1 - p = (i - p) + 1 := by omega
    rw [h2, List.getElem?_cons_succ, List.getElem?_drop]
    have h3 : p + (i - p) = i := by omega
    rw [h3]

/-- Instance of `insert_shifts_spec` on Scenario C: inserting 99 at
position 2 of `[0, 1, 2, 3, 4]` yields `[0, 1, 99, 2, 3, 4]`. -/
theorem insert_scenarioC :
    (2 ≤ (⟨[(0 : Int), 1, 2, 3, 4], 8, 0⟩ : CppVector Int).size ∧
      insertF (⟨[(0 : Int), 1, 2, 3, 4], 8, 0⟩ : CppVector Int) 2 99 =
        .ok (⟨[(0 : Int), 1, 99, 2, 3, 4], 8, 0⟩ : CppVector Int)) ∧
    ∃ v', insertF (⟨[(0 : Int), 1, 2, 3, 4], 8, 0⟩ : CppVector Int) 2 99 = .ok v' ∧
      v'.size = (⟨[(0 : Int), 1, 2, 3, 4], 8, 0⟩ : CppVector Int).size + 1 ∧
      atF v' 2 = .ok 99 ∧
      (∀ i, i < 2 → atF v' i = atF (⟨[(0 : Int), 1, 2, 3, 4], 8, 0⟩ : CppVector Int) i) ∧
      (∀ i, 2 ≤ i → i < (⟨[(0 : Int), 1, 2, 3, 4], 8, 0⟩ : CppVector Int).size →
        atF v' (i + 1) = atF (⟨[(0 : Int), 1, 2, 3, 4], 8, 0⟩ : CppVector Int) i) :=
  ⟨⟨by decide, by decide⟩, insert_shifts_spec ⟨[(0 : Int), 1, 2, 3, 4], 8, 0⟩ 2 99 (by decide)⟩

/-- The source's `pop_front` delegates to `m_vTvector.erase(begin())`,
which on an empty vector is undefined behaviour — none of the
specification's three taxonomy errors (`OutOfRange`, `EmptyContainer`,
`AllocationFailure`) is produced, so the claimed "fails with one of the
taxonomy errors and preserves state" discipline does not describe this
failure. -/
theorem popFront_empty_untaxonomized :
    popFront (emptyBVL : CppVector Int) = .error .undefinedBehavior ∧
    CppError.undefinedBehavior ≠ CppError.outOfRange ∧
    CppError.undefinedBehavior ≠ CppError.emptyContainer ∧
    CppError.undefinedBehavior ≠ CppError.allocationFailure := by
  decide

/-- The source's `push_front` inserts at position 0: it grows the size by
1, places the value at index 0 and moves every element one index up;
`pop_front` on a non-empty container removes the element at index 0 and
moves every remaining element one index down. -/
theorem pushFront_popFront_spec {α : Type} (v : CppVector α) (x : α) :
    (pushFront v x).size = v.size + 1 ∧
    atF (pushFront v x) 0 = .ok x ∧
    (∀ i, i < v.size → atF (pushFront v x) (i + 1) = atF v i) ∧
    (0 < v.size → ∃ v', popFront v = .ok v' ∧ v'.size = v.size - 1 ∧
      ∀ i, i + 1 < v.size → atF v' i = atF v (i + 1)) := by
  refine ⟨?_, ?_, fun i hi => ?_, fun h0 => ?_⟩
  · simp [size, pushFront_data]
  · rw [atF_eq, pushFront_data]
    simp
  · rw [atF_eq, atF_eq, pushFront_data, List.getElem?_cons_succ]
  · have h0' : 0 < v.data.length := h0
    refine ⟨{ v with data := v.data.take 0 ++ v.data.drop (0 + 1) }, ?_, ?_, fun i hi => ?_⟩
    · simp [popFront, eraseF, h0']
    · simp [size]
    · rw [atF_eq, atF_eq]
      simp only [List.take_zero, List.nil_append]
      rw [List.getElem?_drop]
      have h3 : 0 + 1 + i = i + 1 := by omega
      rw [h3]

/-- Instance of `pushFront_popFront_spec` on the container `[7, 8]` with
pushed value 5. -/
theorem pushFront_popFront_spec_instance :
    (pushFront (⟨[(7 : Int), 8], 2, 1⟩ : CppVector Int) 5).size =
      (⟨[(7 : Int), 8], 2, 1⟩ : CppVector Int).size + 1 ∧
    atF (pushFront (⟨[(7 : Int), 8], 2, 1⟩ : CppVector Int) 5) 0 = .ok 5 ∧
    ∃ v', popFront (⟨[(7 : Int), 8], 2, 1⟩ : CppVector Int) = .ok v' ∧
      v'.size = (⟨[(7 : Int), 8], 2, 1⟩ : CppVector Int).size - 1 ∧
      ∀ i, i + 1 < (⟨[(7 : Int), 8], 2, 1⟩ : CppVector Int).size →
        atF v' i = atF (⟨[(7 : Int), 8], 2, 1⟩ : CppVector Int) (i + 1) :=
  ⟨(pushFront_popFront_spec (⟨[(7 : Int), 8], 2, 1⟩ : CppVector Int) 5).1,
   (pushFront_popFront_spec (⟨[(7 : Int), 8], 2, 1⟩ : CppVector Int) 5).2.1,
   (pushFront_popFront_spec (⟨[(7 : Int), 8], 2, 1⟩ : CppVector Int) 5).2.2.2 (by decide)⟩

namespace Op

variable {α : Type}

theorem runOps_ok (ops : List (Op α)) :
    ∀ v : CppVector α, validFrom v.size ops = true →
      ∃ v', runOps v ops = .ok v' ∧ v'.data = opsModel v.data ops := by
  induction ops with
  | nil => exact fun v _ => ⟨v, rfl, rfl⟩
  | cons op rest ih =>
    intro v hv
    cases op with
    | push x =>
      have hv' : validFrom (v.pushBack x).size rest = true := by
        rw [pushBack_size]
        exact hv
      obtain ⟨v', h1, h2⟩ := ih (v.pushBack x) hv'
      exact ⟨v', h1, by rw [h2, pushBack_data]; rfl⟩
    | pop =>
      rw [validFrom, Bool.and_eq_true, decide_eq_true_eq] at hv
      obtain ⟨hpos, hrest⟩ := hv
      rcases v with ⟨data, cap, buf⟩
      cases data with
      | nil => simp [size] at hpos
      | cons a l =>
        have hsz : ((⟨(a :: l).dropLast, cap, buf⟩ : CppVector α)).size =
            (⟨a :: l, cap, buf⟩ : CppVector α).size - 1 := by
          simp [size, List.length_dropLast]
        obtain ⟨v', h1, h2⟩ := ih ⟨(a :: l).dropLast, cap, buf⟩ (by rw [hsz]; exact hrest)
        exact ⟨v', h1, h2⟩

theorem opsModel_length (ops : List (Op α)) :
    ∀ l : List α, validFrom l.length ops = true →
      (opsModel l ops).length + countPop ops = l.length + countPush ops := by
  induction ops with
  | nil => intro l _; simp [opsModel, countPop, countPush]
  | cons op rest ih =>
    intro l hv
    cases op with
    | push x =>
      have h := ih (l ++ [x]) (by simpa [validFrom] using hv)
      simp only [opsModel, countPop, countPush] at *
      simp at h
      omega
    | pop =>
      rw [validFrom, Bool.and_eq_true, decide_eq_true_eq] at hv
      obtain ⟨hpos, hrest⟩ := hv
      have h := ih l.dropLast (by rw [List.length_dropLast]; exact hrest)
      simp only [opsModel, countPop, countPush] at *
      rw [List.length_dropLast] at h
      omega

end Op

/-- For every admissible sequence of `push_back`/`pop_back` calls started
on the empty container (each `pop_back` issued only when non-empty), the
run succeeds, the final `size()` is the number of pushes minus the number
of pops, and `at(i)` returns the i-th pushed-and-not-popped value in push
order. -/
theorem pushBack_popBack_sequences {α : Type} [Inhabited α] (ops : List (Op α))
    (h : validFrom 0 ops = true) :
    ∃ v, runOps (emptyBVL : CppVector α) ops = .ok v ∧
      v.size = countPush ops - countPop ops ∧
      ∀ i, i < v.size → atF v i = .ok ((opsModel [] ops).getD i default) := by
  obtain ⟨v, h1, h2⟩ := runOps_ok ops (emptyBVL : CppVector α) h
  have hlen := opsModel_length ops ([] : List α) h
  simp only [List.length_nil] at hlen
  have hsz : v.size = countPush ops - countPop ops := by
    simp only [CppVector.size, h2]
    show (opsModel ([] : List α) ops).length = _
    omega
  refine ⟨v, h1, hsz, fun i hi => ?_⟩
  have hi' : i < v.data.length := hi
  rw [atF_of_lt v i hi']
  have hgd : v.data.getD i default = v.data[i] := List.getD_eq_getElem v.data default hi'
  rw [← hgd, h2]
  rfl

/-- Instance of `pushBack_popBack_sequences` on Scenario A: pushing
0, 1, 2, 3, 4 in order gives size 5, `at 0 = 0` and `at 4 = 4`. -/
theorem pushBack_popBack_scenarioA :
    (validFrom 0 [Op.push (0 : Int), .push 1, .push 2, .push 3, .push 4] = true ∧
      ∃ v, runOps (emptyBVL : CppVector Int)
          [Op.push (0 : Int), .push 1, .push 2, .push 3, .push 4] = .ok v ∧
        v.size = countPush [Op.push (0 : Int), .push 1, .push 2, .push 3, .push 4] -
          countPop [Op.push (0 : Int), .push 1, .push 2, .push 3, .push 4] ∧
        ∀ i, i < v.size →
          atF v i = .ok ((opsModel []
            [Op.push (0 : Int), .push 1, .push 2, .push 3, .push 4]).getD i default)) ∧
    runOps (emptyBVL : CppVector Int)
        [Op.push (0 : Int), .push 1, .push 2, .push 3, .push 4] = .ok ⟨[0, 1, 2, 3, 4], 8, 4⟩ ∧
    atF (⟨[(0 : Int), 1, 2, 3, 4], 8, 4⟩ : CppVector Int) 0 = .ok 0 ∧
    atF (⟨[(0 : Int), 1, 2, 3, 4], 8, 4⟩ : CppVector Int) 4 = .ok 4 :=
  ⟨⟨by decide, pushBack_popBack_sequences _ (by decide)⟩, by decide, by decide, by decide⟩

/-- The source's `operator==` returns `true` exactly when the sizes are
equal and the elements agree at every index below the size. -/
theorem opEq_iff {α : Type} [DecidableEq α] [Inhabited α] (lhs rhs : CppVector α) :
    opEq lhs rhs = true ↔
      (lhs.size = rhs.size ∧ ∀ i, i < lhs.size → opIndex lhs i = opIndex rhs i) := by
  unfold opEq
  split
  · rename_i hsz
    simp [List.all_eq_true, List.mem_range, hsz]
  · rename_i hsz
    simp [hsz]

/-- Instance of `opEq_iff`: two containers with equal contents but
different capacities and allocation histories compare equal. -/
theorem opEq_iff_instance :
    opEq (⟨[(1 : Int), 2], 2, 0⟩ : CppVector Int) (⟨[(1 : Int), 2], 4, 7⟩ : CppVector Int) = true ↔
      ((⟨[(1 : Int), 2], 2, 0⟩ : CppVector Int).size =
        (⟨[(1 : Int), 2], 4, 7⟩ : CppVector Int).size ∧
       ∀ i, i < (⟨[(1 : Int), 2], 2, 0⟩ : CppVector Int).size →
         opIndex (⟨[(1 : Int), 2], 2, 0⟩ : CppVector Int) i =
           opIndex (⟨[(1 : Int), 2], 4, 7⟩ : CppVector Int) i) :=
  opEq_iff (⟨[(1 : Int), 2], 2, 0⟩ : CppVector Int) (⟨[(1 : Int), 2], 4, 7⟩ : CppVector Int)

namespace CppVector

variable {α : Type}

theorem lexLoop_iff_lex [LinearOrder α] :
    ∀ as bs : List α, lexLoop as bs = true ↔ List.Lex (· < ·) as bs := by
  intro as
  induction as with
  | nil =>
    intro bs
    cases bs with
    | nil =>
      constructor
      · intro h
        simp [lexLoop] at h
      · intro h
        cases h
    | cons b bs' =>
      constructor
      · intro _
        exact List.Lex.nil
      · intro _
        rfl
  | cons a as' ih =>
    intro bs
    cases bs with
    | nil =>
      constructor
      · intro h
        simp [lexLoop] at h
      · intro h
        cases h
    | cons b bs' =>
      constructor
      · intro h
        by_cases h1 : a < b
        · exact List.Lex.rel h1
        · by_cases h2 : b < a
          · rw [lexLoop, if_neg h1, if_pos h2] at h
            cases h
          · rw [lexLoop, if_neg h1, if_neg h2] at h
            have hab : a = b := le_antisymm (le_of_not_lt h2) (le_of_not_lt h1)
            subst hab
            exact List.Lex.cons ((ih bs').mp h)
      · intro h
        cases h with
        | cons h' =>
          rw [lexLoop, if_neg (lt_irrefl a), if_neg (lt_irrefl a)]
          exact (ih bs').mpr h'
        | rel h' =>
          rw [lexLoop, if_pos h']

theorem opLtGo_exit [LinearOrder α] [Inhabited α] (lhs rhs : CppVector α) (i : Nat)
    (h1 : i ≤ lhs.size) (h2 : i ≤ rhs.size) (hcond : ¬(i < lhs.size ∧ i < rhs.size)) :
    decide (lhs.size < rhs.size) = lexLoop (lhs.data.drop i) (rhs.data.drop i) := by
  have e1 : lhs.data.length = lhs.size := rfl
  have e2 : rhs.data.length = rhs.size := rfl
  by_cases h3 : i < lhs.size
  · have h4 : ¬ i < rhs.size := fun hc => hcond ⟨h3, hc⟩
    have hd2 : rhs.data.drop i = [] := List.drop_eq_nil_iff.mpr (by omega)
    have hd1 : lhs.data.drop i = lhs.data[i] :: lhs.data.drop (i + 1) :=
      List.drop_eq_getElem_cons (by omega)
    rw [hd1, hd2, lexLoop]
    simp only [decide_eq_false_iff_not]
    omega
  · have hd1 : lhs.data.drop i = [] := List.drop_eq_nil_iff.mpr (by omega)
    rw [hd1]
    by_cases h4 : i < rhs.size
    · have hd2 : rhs.data.drop i = rhs.data[i] :: rhs.data.drop (i + 1) :=
        List.drop_eq_getElem_cons (by omega)
      rw [hd2, lexLoop]
      simp only [decide_eq_true_eq]
      omega
    · have hd2 : rhs.data.drop i = [] := List.drop_eq_nil_iff.mpr (by omega)
      rw [hd2, lexLoop]
      simp only [decide_eq_false_iff_not]
      omega

theorem opLtGo_eq_lexLoop [LinearOrder α] [Inhabited α] (lhs rhs : CppVector α) :
    ∀ n i, lhs.size - i ≤ n → i ≤ lhs.size → i ≤ rhs.size →
      opLtGo lhs rhs i = lexLoop (lhs.data.drop i) (rhs.data.drop i) := by
  intro n
  induction n with
  | zero =>
    intro i hn h1 h2
    have hcond : ¬(i < lhs.size ∧ i < rhs.size) := by omega
    rw [opLtGo, dif_neg hcond]
    exact opLtGo_exit lhs rhs i h1 h2 hcond
  | succ n ih =>
    intro i hn h1 h2
    by_cases hcond : i < lhs.size ∧ i < rhs.size
    · obtain ⟨hc1, hc2⟩ := hcond
      rw [opLtGo, dif_pos ⟨hc1, hc2⟩]
      rw [List.drop_eq_getElem_cons (show i < lhs.data.length from hc1),
          List.drop_eq_getElem_cons (show i < rhs.data.length from hc2), lexLoop]
      have hidx1 : opIndex lhs i = lhs.data[i] := List.getD_eq_getElem lhs.data default hc1
      have hidx2 : opIndex rhs i = rhs.data[i] := List.getD_eq_getElem rhs.data default hc2
      rw [hidx1, hidx2]
      by_cases hab : lhs.data[i] < rhs.data[i]
      · rw [if_pos hab, if_pos hab]
      · rw [if_neg hab, if_neg hab]
        by_cases hba : rhs.data[i] < lhs.data[i]
        · rw [if_pos hba, if_pos hba]
        · rw [if_neg hba, if_neg hba]
          exact ih (i + 1) (by omega) (by omega) (by omega)
    · rw [opLtGo, dif_neg hcond]
      exact opLtGo_exit lhs rhs i h1 h2 hcond

end CppVector

/-- The source's `operator<` implements the lexicographic order on the
stored sequences: it returns `true` exactly when, at the first differing
index, the left element is smaller, or the left sequence is a proper
all-equal prefix of the right one (the shorter orders first). -/
theorem opLt_iff_lex {α : Type} [LinearOrder α] [Inhabited α] (lhs rhs : CppVector α) :
    opLt lhs rhs = true ↔ List.Lex (· < ·) lhs.data rhs.data := by
  have h := opLtGo_eq_lexLoop lhs rhs lhs.size 0 (by omega) (by omega) (by omega)
  rw [opLt, h, List.drop_zero, List.drop_zero]
  exact lexLoop_iff_lex lhs.data rhs.data

/-- Instance of `opLt_iff_lex`: `[1, 2]` against `[1, 2, 3]`, the shorter
all-equal-prefix container ordering first. -/
theorem opLt_iff_lex_instance :
    opLt (⟨[(1 : Int), 2], 2, 0⟩ : CppVector Int) (⟨[(1 : Int), 2, 3], 4, 1⟩ : CppVector Int) = true ↔
      List.Lex (· < ·) (⟨[(1 : Int), 2], 2, 0⟩ : CppVector Int).data
        (⟨[(1 : Int), 2, 3], 4, 1⟩ : CppVector Int).data :=
  opLt_iff_lex (⟨[(1 : Int), 2], 2, 0⟩ : CppVector Int) (⟨[(1 : Int), 2, 3], 4, 1⟩ : CppVector Int)

theorem cumulativeCapacity_even (m : Nat) :
    cumulativeCapacity (2 * m) = 2 * 2 ^ m - 2 := by
  unfold cumulativeCapacity
  have h1 : (2 * m) % 2 = 0 := by omega
  have h2 : 2 * m / 2 = m := by omega
  rw [if_pos h1, h2, pow_succ]
  omega

theorem cumulativeCapacity_odd (m : Nat) :
    cumulativeCapacity (2 * m + 1) = 3 * 2 ^ m - 2 := by
  unfold cumulativeCapacity
  have h1 : ¬((2 * m + 1) % 2 = 0) := by omega
  have h2 : (2 * m + 1) / 2 = m := by omega
  rw [if_neg h1, h2]

theorem blockCapacityFor_even (m : Nat) : blockCapacityFor (2 * m) = 2 ^ m := by
  unfold blockCapacityFor
  have h2 : 2 * m / 2 = m := by omega
  rw [h2]

theorem blockCapacityFor_odd (m : Nat) : blockCapacityFor (2 * m + 1) = 2 ^ m := by
  unfold blockCapacityFor
  have h2 : (2 * m + 1) / 2 = m := by omega
  rw [h2]

theorem log2_bounds (j : Nat) (hj : 2 ≤ j) :
    1 ≤ Nat.log2 j ∧ 2 ^ Nat.log2 j ≤ j ∧ j < 2 ^ (Nat.log2 j + 1) := by
  refine ⟨?_, Nat.log2_self_le (by omega), Nat.lt_log2_self⟩
  rw [Nat.log2]
  simp [hj]

theorem locateBlock_bounds (i : Nat) :
    cumulativeCapacity (locateBlock i) ≤ i ∧
    i - cumulativeCapacity (locateBlock i) < blockCapacityFor (locateBlock i) := by
  have hj : 2 ≤ i + 2 := by omega
  obtain ⟨hL1, hlow, hhigh⟩ := log2_bounds (i + 2) hj
  set L := Nat.log2 (i + 2) with hLdef
  set m := L - 1 with hmdef
  have hm1 : m + 1 = L := by omega
  have hP1 : 0 < 2 ^ m := Nat.two_pow_pos m
  have hpow1 : 2 ^ (m + 1) = 2 * 2 ^ m := by
    rw [pow_succ]
    omega
  have hpow2 : 2 ^ (L + 1) = 4 * 2 ^ m := by
    rw [← hm1, pow_succ, pow_succ]
    omega
  have hlow' : 2 * 2 ^ m ≤ i + 2 := by
    rw [← hpow1, hm1]
    exact hlow
  have hhigh' : i + 2 < 4 * 2 ^ m := by
    rw [← hpow2]
    exact hhigh
  unfold locateBlock
  rw [← hLdef, ← hmdef]
  by_cases hc : i + 2 < 3 * 2 ^ m
  · rw [if_pos hc, cumulativeCapacity_even, blockCapacityFor_even]
    omega
  · rw [if_neg hc, cumulativeCapacity_odd, blockCapacityFor_odd]
    omega

/-- The spec-modelled Index Mapper `locate` fails with `OutOfRange` exactly
when the logical index is at or beyond the total size, and on a valid index
it returns a (block, offset) pair from which the cumulative-capacity
computation recovers the index exactly, with the offset inside the block's
scheduled capacity. -/
theorem locate_roundtrip (i total : Nat) :
    (locate i total = .error .outOfRange ↔ total ≤ i) ∧
    (i < total →
      locate i total = .ok (locateBlock i, locateOffset i) ∧
      cumulativeCapacity (locateBlock i) + locateOffset i = i ∧
      locateOffset i < blockCapacityFor (locateBlock i)) := by
  constructor
  · unfold locate
    by_cases h : total ≤ i
    · simp [h]
    · simp [h]
  · intro hlt
    have hb := locateBlock_bounds i
    refine ⟨by unfold locate; rw [if_neg (by omega)], ?_, ?_⟩
    · unfold locateOffset
      omega
    · unfold locateOffset
      exact hb.2

/-- Instance of `locate_roundtrip` at logical index 4 under total size 5:
the located block and offset recover the index through the cumulative
capacities. -/
theorem locate_roundtrip_instance :
    4 < 5 ∧
    (locate 4 5 = .ok (locateBlock 4, locateOffset 4) ∧
     cumulativeCapacity (locateBlock 4) + locateOffset 4 = 4 ∧
     locateOffset 4 < blockCapacityFor (locateBlock 4)) :=
  ⟨by omega, (locate_roundtrip 4 5).2 (by omega)⟩

namespace CppVector

variable {α : Type}

theorem pushBackA_allocOk (v : CppVector α) (x : α) :
    pushBackA true v x = .ok (pushBack v x) := by
  unfold pushBackA
  rw [if_neg]
  simp

theorem pushFrontA_allocOk (v : CppVector α) (x : α) :
    pushFrontA true v x = .ok (pushFront v x) := by
  unfold pushFrontA
  rw [if_neg]
  simp

theorem insertA_refines_insertF (v : CppVector α) (p : Nat) (x : α) (w : CppVector α) :
    insertA true v p x = .ok w ↔ insertF v p x = .ok w := by
  unfold insertA insertF
  split
  · rw [if_neg (by simp)]
    simp
  · simp

end CppVector

/-- Amended failure atomicity: whenever an allocating mutating operation
(`push_back`, `push_front`, `insert` at a valid position) fails, the
failure is the delegated allocation's `AllocationFailure` and the
container's size and contents after the call are exactly what they were
before it (the standard's no-effects guarantee for `std::bad_alloc`);
the non-allocating pop/erase family never reports any failure at all —
the conditions the specification assigns to `EmptyContainer` or
`OutOfRange` (popping or erasing when empty or past the end) are
undefined behaviour of the delegated call, with no state guarantee. -/
theorem mutators_atomic_on_failure {α : Type} (allocOk : Bool) (v : CppVector α)
    (x : α) (p : Nat) :
    (∀ e w, pushBackA allocOk v x = .failed e w → e = .allocationFailure ∧ w = v) ∧
    (∀ e w, pushFrontA allocOk v x = .failed e w → e = .allocationFailure ∧ w = v) ∧
    (∀ e w, insertA allocOk v p x = .failed e w → e = .allocationFailure ∧ w = v) ∧
    (∀ e w, popBackA v ≠ CppOutcome.failed e w) ∧
    (∀ e w, popFrontA v ≠ CppOutcome.failed e w) ∧
    (∀ e w, eraseA v p ≠ CppOutcome.failed e w) ∧
    (popBackA v = .ub ↔ v.size = 0) ∧
    (popFrontA v = .ub ↔ v.size = 0) ∧
    (eraseA v p = .ub ↔ v.size ≤ p) ∧
    (insertA allocOk v p x = .ub ↔ v.size < p) := by
  refine ⟨fun e w h => ?_, fun e w h => ?_, fun e w h => ?_, fun e w h => ?_,
    fun e w h => ?_, fun e w h => ?_, ?_, ?_, ?_, ?_⟩
  · unfold pushBackA at h
    split at h
    · injection h with h1 h2
      exact ⟨h1.symm, h2.symm⟩
    · exact absurd h (by simp)
  · unfold pushFrontA at h
    split at h
    · injection h with h1 h2
      exact ⟨h1.symm, h2.symm⟩
    · exact absurd h (by simp)
  · unfold insertA at h
    split at h
    · split at h
      · injection h with h1 h2
        exact ⟨h1.symm, h2.symm⟩
      · exact absurd h (by simp)
    · exact absurd h (by simp)
  · unfold popBackA at h
    split at h <;> simp at h
  · unfold popFrontA eraseA at h
    split at h <;> simp at h
  · unfold eraseA at h
    split at h <;> simp at h
  · rcases v with ⟨data, cap, buf⟩
    cases data with
    | nil => simp [popBackA, size]
    | cons a l => simp [popBackA, size]
  · unfold popFrontA eraseA
    split
    · rename_i hlt
      refine ⟨fun h => ?_, fun h => ?_⟩
      · simp at h
      · have h' : v.data.length = 0 := h
        omega
    · rename_i hlt
      refine ⟨fun _ => ?_, fun _ => rfl⟩
      show v.data.length = 0
      omega
  · unfold eraseA
    split
    · rename_i hlt
      refine ⟨fun h => ?_, fun h => ?_⟩
      · simp at h
      · have h' : v.data.length ≤ p := h
        omega
    · rename_i hlt
      refine ⟨fun _ => ?_, fun _ => rfl⟩
      show v.data.length ≤ p
      omega
  · unfold insertA
    split
    · rename_i hle
      split
      · refine ⟨fun h => ?_, fun h => ?_⟩
        · simp at h
        · have h' : v.data.length < p := h
          omega
      · refine ⟨fun h => ?_, fun h => ?_⟩
        · simp at h
        · have h' : v.data.length < p := h
          omega
    · rename_i hle
      refine ⟨fun _ => ?_, fun _ => rfl⟩
      show v.data.length < p
      omega

/-- Instance of `mutators_atomic_on_failure`: pushing onto a full
one-element container while the allocation fails reports
`AllocationFailure` and leaves the container exactly as it was. -/
theorem mutators_atomic_on_failure_instance :
    pushBackA false (⟨[(7 : Int)], 1, 1⟩ : CppVector Int) 9 =
      CppOutcome.failed .allocationFailure (⟨[(7 : Int)], 1, 1⟩ : CppVector Int) ∧
    (CppError.allocationFailure = CppError.allocationFailure ∧
      (⟨[(7 : Int)], 1, 1⟩ : CppVector Int) = (⟨[(7 : Int)], 1, 1⟩ : CppVector Int)) :=
  ⟨by decide,
   (mutators_atomic_on_failure false (⟨[(7 : Int)], 1, 1⟩ : CppVector Int) 9 0).1
     .allocationFailure (⟨[(7 : Int)], 1, 1⟩ : CppVector Int) (by decide)⟩
